import Mathlib

/-!
Verification of `src/whatsapp_viewer.py` (WhatsApp chat viewer).

The Python source is shallowly embedded: pure functions become Lean
functions over `String` / `List Char`; the two anchored regular
expressions `MESSAGE_RE` and `SYSTEM_RE` are hand-translated into
deterministic matchers that reproduce Python's leftmost/greedy
backtracking behaviour on these specific patterns; the filesystem
(directory walk, sidecar files) is passed in as explicit data.
Python's Unicode-aware character classes (`\s`, `\d`, `str.strip`,
`str.lower`) are modelled over ASCII, which is the range exercised by
the transcripts and filenames this program handles.
-/

/-- ASCII model of the characters matched by Python's regex `\s` and
stripped by `str.strip()`. -/
def isPyWs (c : Char) : Bool :=
  c = ' ' || c = '\t' || c = '\n' || c = '\r' || c = '\x0b' || c = '\x0c'

/-- ASCII model of Python's regex `\d`. -/
def isPyDigit (c : Char) : Bool :=
  '0' ≤ c && c ≤ '9'

/-- The character class `[APMapm]` used by both header regexes. -/
def isAmPmChar (c : Char) : Bool :=
  c = 'A' || c = 'P' || c = 'M' || c = 'a' || c = 'p' || c = 'm'

/-- Python `str.strip()` on a character list (ASCII whitespace model). -/
def pyStripList (l : List Char) : List Char :=
  ((l.dropWhile isPyWs).reverse.dropWhile isPyWs).reverse

/-- Python `str.strip()` (ASCII whitespace model). -/
def pyStrip (s : String) : String :=
  ⟨pyStripList s.data⟩

/-- The date part `\d{1,2}/\d{1,2}/\d{2,4}` of both header regexes.
Returns the captured characters and the rest of the line.  The
surrounding pattern continues with `,?\s+`, so the greedy `\d{2,4}`
never benefits from giving characters back; taking the maximal digit
runs and bounding their lengths reproduces the backtracking search. -/
def matchDate (s : List Char) : Option (List Char × List Char) :=
  let r1 := s.takeWhile isPyDigit
  let s1 := s.dropWhile isPyDigit
  if 1 ≤ r1.length ∧ r1.length ≤ 2 then
    match s1 with
    | '/' :: s2 =>
      let r2 := s2.takeWhile isPyDigit
      let s3 := s2.dropWhile isPyDigit
      if 1 ≤ r2.length ∧ r2.length ≤ 2 then
        match s3 with
        | '/' :: s4 =>
          let r3 := s4.takeWhile isPyDigit
          let s5 := s4.dropWhile isPyDigit
          if 2 ≤ r3.length ∧ r3.length ≤ 4 then
            some (r1 ++ '/' :: r2 ++ '/' :: r3, s5)
          else none
        | _ => none
      else none
    | _ => none
  else none

/-- The `,?\s+` separating date from time in both header regexes:
an optional comma followed by at least one whitespace character. -/
def commaWs (s : List Char) : Option (List Char) :=
  let s1 := match s with
    | ',' :: r => r
    | _ => s
  if (s1.takeWhile isPyWs).isEmpty then none else some (s1.dropWhile isPyWs)

/-- The mandatory `\d{1,2}:\d{2}` core of the time group. -/
def timeCore (s : List Char) : Option (List Char × List Char) :=
  let r1 := s.takeWhile isPyDigit
  let s1 := s.dropWhile isPyDigit
  if 1 ≤ r1.length ∧ r1.length ≤ 2 then
    match s1 with
    | ':' :: a :: b :: s2 =>
      if isPyDigit a ∧ isPyDigit b then some (r1 ++ [':', a, b], s2) else none
    | _ => none
  else none

/-- First alternative of the optional AM/PM group: `\s[APMapm]{2}`
(the inner `\s?` consuming one character), then the continuation. -/
def amPmWs (t rest : List Char) (k : List Char → Option α) : Option (List Char × α) :=
  match rest with
  | w :: c1 :: c2 :: r =>
    if isPyWs w ∧ isAmPmChar c1 ∧ isAmPmChar c2 then
      (k r).map (fun a => (t ++ [w, c1, c2], a))
    else none
  | _ => none

/-- Second alternative of the optional AM/PM group: `[APMapm]{2}`
(the inner `\s?` empty), then the continuation. -/
def amPmDirect (t rest : List Char) (k : List Char → Option α) : Option (List Char × α) :=
  match rest with
  | c1 :: c2 :: r =>
    if isAmPmChar c1 ∧ isAmPmChar c2 then
      (k r).map (fun a => (t ++ [c1, c2], a))
    else none
  | _ => none

/-- The full time group `\d{1,2}:\d{2}(?:\s?[APMapm]{2})?` followed by an
arbitrary continuation `k` (the remainder of the regex).  The optional
AM/PM group and its inner `\s?` are greedy, so the alternatives are
tried in the order: whitespace + two class characters, two class
characters, nothing — the first alternative whose continuation
succeeds wins, exactly as in Python's backtracking. -/
def timeAndThen (s : List Char) (k : List Char → Option α) : Option (List Char × α) :=
  match timeCore s with
  | none => none
  | some (t, rest) =>
    amPmWs t rest k <|> amPmDirect t rest k <|> (k rest).map (fun a => (t, a))

/-- The `\s+-\s+` separator between the time group and the body. -/
def sepHyphen (s : List Char) : Option (List Char) :=
  if (s.takeWhile isPyWs).isEmpty then none else
    match s.dropWhile isPyWs with
    | '-' :: s2 =>
      if (s2.takeWhile isPyWs).isEmpty then none
      else some (s2.dropWhile isPyWs)
    | _ => none

/-- The tail `(.*?):\s+(.*)` of `MESSAGE_RE`: the lazy sender group stops
at the first colon that is followed by at least one whitespace
character; the greedy `\s+` then swallows that whitespace run and
`(.*)` captures the remainder of the line. -/
def senderTextGo (acc : List Char) : List Char → Option (String × String)
  | [] => none
  | c :: r =>
    if c = ':' then
      if (r.takeWhile isPyWs).isEmpty then senderTextGo (c :: acc) r
      else some (⟨acc.reverse⟩, ⟨r.dropWhile isPyWs⟩)
    else senderTextGo (c :: acc) r

/-- See `senderTextGo`. -/
def senderText (s : List Char) : Option (String × String) :=
  senderTextGo [] s

/-- `MESSAGE_RE.match(line)`: on success returns the four captured
groups (date, time, sender, text). -/
def matchMessage (line : String) : Option (String × String × String × String) :=
  match matchDate line.data with
  | none => none
  | some (d, s1) =>
    match commaWs s1 with
    | none => none
    | some s2 =>
      match timeAndThen s2 (fun r =>
          match sepHyphen r with
          | none => none
          | some r2 => senderText r2) with
      | some (t, sn, tx) => some (⟨d⟩, ⟨t⟩, sn, tx)
      | none => none

/-- `SYSTEM_RE.match(line)`: on success returns the three captured
groups (date, time, text). -/
def matchSystem (line : String) : Option (String × String × String) :=
  match matchDate line.data with
  | none => none
  | some (d, s1) =>
    match commaWs s1 with
    | none => none
    | some s2 =>
      match timeAndThen s2 (fun r =>
          match sepHyphen r with
          | none => none
          | some r2 => some (⟨r2⟩ : String)) with
      | some (t, tx) => some (⟨d⟩, ⟨t⟩, tx)
      | none => none

/-- One parsed chat record (the `current` dict of `parse_chat`). -/
structure Message where
  date : String
  time : String
  sender : String
  text : String
deriving DecidableEq, Repr

/-- Replace the last element of a list by `f` of it. -/
def updateLastMsg (f : Message → Message) : List Message → List Message
  | [] => []
  | [m] => [f m]
  | m :: r => m :: updateLastMsg f r

/-- One iteration of the `parse_chat` loop.  In the Python source the
open record `current` is a dict that is appended to `messages` when
created and mutated in place afterwards; since every branch that sets
`current` also appends it, `current` is always the last list element,
so the state is just the list built so far (empty list = no open
record). -/
def processLine (msgs : List Message) (line : String) : List Message :=
  match matchMessage line with
  | some (d, t, sn, tx) =>
    msgs ++ [{ date := pyStrip d, time := pyStrip t, sender := pyStrip sn, text := tx }]
  | none =>
    match matchSystem line with
    | some (d, t, tx) =>
      msgs ++ [{ date := pyStrip d, time := pyStrip t, sender := "", text := tx }]
    | none =>
      match msgs with
      | [] => [{ date := "", time := "", sender := "", text := line }]
      | _ :: _ => updateLastMsg (fun m => { m with text := m.text ++ "\n" ++ line }) msgs

/-- `parse_chat`: fold the loop body over the input lines (each line is
the file line with its trailing newline already removed, as done by
`raw_line.rstrip("\n")`). -/
def parse_chat (lines : List String) : List Message :=
  lines.foldl processLine []

/-- A line that matches either header pattern. -/
def isHeaderLine (line : String) : Bool :=
  (matchMessage line).isSome || (matchSystem line).isSome

/-- Python `str.lower()` on one character (ASCII model). -/
def lowerChar (c : Char) : Char :=
  if 'A' ≤ c ∧ c ≤ 'Z' then Char.ofNat (c.toNat + 32) else c

/-- Python `str.lower()` (ASCII model). -/
def pyLower (s : String) : String :=
  ⟨s.data.map lowerChar⟩

/-- The `MEDIA_EXTS` tuple of recognized media extensions. -/
def MEDIA_EXTS : List String :=
  ["jpg", "jpeg", "png", "gif",
   "mp4", "mov", "mkv", "webm",
   "opus", "ogg", "mp3", "wav", "m4a",
   "webp",
   "pdf",
   "was"]

/-- The `AUDIO_EXTS` tuple. -/
def AUDIO_EXTS : List String :=
  ["opus", "ogg", "mp3", "wav", "m4a"]

/-- `s.rsplit(".", 1)[-1]`: everything after the last dot, or the whole
string when it has no dot. -/
def afterLastDot (s : String) : String :=
  ⟨(s.data.reverse.takeWhile (fun c => c ≠ '.')).reverse⟩

/-- Worker for `pyReplace`; the fuel starts at the haystack length,
which is enough because every step consumes at least one character of
the remaining haystack (for a nonempty pattern). -/
def pyReplaceAux (pat rep : List Char) : Nat → List Char → List Char
  | 0, rest => rest
  | _ + 1, [] => []
  | fuel + 1, c :: r =>
    if pat.isPrefixOf (c :: r) then
      rep ++ pyReplaceAux pat rep fuel (List.drop (pat.length - 1) r)
    else
      c :: pyReplaceAux pat rep fuel r

/-- Python `s.replace(pat, rep)` for nonempty `pat`: replace all
non-overlapping occurrences left to right.  (The program never calls
`replace` with an empty pattern.) -/
def pyReplace (s pat rep : String) : String :=
  ⟨pyReplaceAux pat.data rep.data s.data.length s.data⟩

/-- The `rel_path.replace("\\", "/")` normalization in
`build_media_index`. -/
def normSlash (s : String) : String :=
  pyReplace s "\\" "/"

/-- One regular file met by the `os.walk` traversal in
`build_media_index`: its base name and the relative path
`os.path.relpath(os.path.join(root, name), output_dir)` computed for
it.  The walk order and the host path arithmetic are inputs of the
model. -/
structure ScannedFile where
  name : String
  rel : String
deriving DecidableEq, Repr

/-- Python dict assignment `d[k] = v`: overwrite the value of an
existing key in place, otherwise append the binding. -/
def dictInsert (k v : String) : List (String × String) → List (String × String)
  | [] => [(k, v)]
  | (k2, v2) :: r => if k2 = k then (k2, v) :: r else (k2, v2) :: dictInsert k v r

/-- Python `d[k]` / `k in d` on the insertion-ordered dict model. -/
def lookupD : List (String × String) → String → Option String
  | [], _ => none
  | (k2, v2) :: r, k => if k2 = k then some v2 else lookupD r k

/-- The filter applied by `build_media_index` to each file name: skip
names containing no dot, then keep only recognized extensions
(`name.rsplit(".", 1)[-1].lower() in MEDIA_EXTS`). -/
def keepMediaFile (name : String) : Bool :=
  name.data.contains '.' && MEDIA_EXTS.contains (pyLower (afterLastDot name))

/-- `build_media_index`, over the list of files produced by the
`os.walk` traversal in walk order. -/
def build_media_index (files : List ScannedFile) : List (String × String) :=
  files.foldl (fun index f =>
    if keepMediaFile f.name then dictInsert (pyLower f.name) (normSlash f.rel) index
    else index) []

/-- The positional-inference loop of `build_sender_classes` (taken when
no usable `me_name` is supplied): state is the pair `first`/`second` of
the code plus the `sender_classes` dict. -/
def senderClassesAuto : Option String → Option String → List (String × String) →
    List Message → List (String × String)
  | _, _, classes, [] => classes
  | fo, so, classes, m :: rest =>
    if m.sender = "" then senderClassesAuto fo so classes rest
    else
      match fo with
      | none => senderClassesAuto (some m.sender) so (dictInsert m.sender "received" classes) rest
      | some f =>
        match so with
        | none =>
          if m.sender ≠ f then
            senderClassesAuto (some f) (some m.sender) (dictInsert m.sender "sent" classes) rest
          else if lookupD classes m.sender = none then
            senderClassesAuto (some f) none (dictInsert m.sender "received" classes) rest
          else senderClassesAuto (some f) none classes rest
        | some sec =>
          if lookupD classes m.sender = none then
            senderClassesAuto (some f) (some sec) (dictInsert m.sender "received" classes) rest
          else senderClassesAuto (some f) (some sec) classes rest

/-- The explicit-name loop of `build_sender_classes`. -/
def senderClassesExplicit (me : String) (classes : List (String × String)) :
    List Message → List (String × String)
  | [] => classes
  | m :: rest =>
    if m.sender = "" then senderClassesExplicit me classes rest
    else if m.sender = me then
      senderClassesExplicit me (dictInsert m.sender "sent" classes) rest
    else if lookupD classes m.sender = none then
      senderClassesExplicit me (dictInsert m.sender "received" classes) rest
    else senderClassesExplicit me classes rest

/-- `build_sender_classes(messages, me_name)`; Python's `if me_name:`
treats both `None` and the empty string as absent. -/
def build_sender_classes (messages : List Message) (me : Option String) :
    List (String × String) :=
  match me with
  | some m =>
    if m = "" then senderClassesAuto none none [] messages
    else senderClassesExplicit m [] messages
  | none => senderClassesAuto none none [] messages

/-- First-occurrence deduplication, used to express which senders are
"distinct" in conversation order. -/
def dedupFirst : List String → List String
  | [] => []
  | s :: r => s :: dedupFirst (r.filter (fun x => x ≠ s))
termination_by l => l.length
decreasing_by
  simp only [List.length_cons]
  exact Nat.lt_succ_of_le (List.length_filter_le _ _)

/-- The distinct non-empty senders of a message sequence, in order of
first appearance. -/
def distinctSenders (messages : List Message) : List String :=
  dedupFirst ((messages.map Message.sender).filter (fun s => s ≠ ""))

/-- Lane assignment described by the specification: first distinct
sender received, second sent, all further ones received. -/
def laneSpec : List String → List (String × String)
  | [] => []
  | [a] => [(a, "received")]
  | a :: b :: rest => (a, "received") :: (b, "sent") :: rest.map (fun s => (s, "received"))

/-- `html.escape(s, quote=True)` from the Python standard library, as
called by the renderer: five chained single-character `str.replace`
calls, ampersand first. -/
def htmlEscape (s : String) : String :=
  pyReplace (pyReplace (pyReplace (pyReplace (pyReplace
    s "&" "&amp;") "<" "&lt;") ">" "&gt;") "\"" "&quot;") "\x27" "&#x27;"

/-- Specification-side description of escaping: each of the five
HTML-unsafe characters is replaced by its entity, every other
character is kept. -/
def escapeCharSpec (c : Char) : List Char :=
  if c = '&' then "&amp;".data
  else if c = '<' then "&lt;".data
  else if c = '>' then "&gt;".data
  else if c = '"' then "&quot;".data
  else if c = Char.ofNat 39 then "&#x27;".data
  else [c]

/-- Single step of the escaping chain: the ampersand replacement. -/
def escAmp (c : Char) : List Char :=
  if c = '&' then "&amp;".data else [c]

/-- Single step of the escaping chain: `<`. -/
def escLt (c : Char) : List Char :=
  if c = '<' then "&lt;".data else [c]

/-- Single step of the escaping chain: `>`. -/
def escGt (c : Char) : List Char :=
  if c = '>' then "&gt;".data else [c]

/-- Single step of the escaping chain: the double quote. -/
def escQuot (c : Char) : List Char :=
  if c = '"' then "&quot;".data else [c]

/-- Single step of the escaping chain: the apostrophe. -/
def escApos (c : Char) : List Char :=
  if c = Char.ofNat 39 then "&#x27;".data else [c]

/-- Number of occurrences of a character in a string. -/
def countChar (c : Char) (s : String) : Nat :=
  s.data.count c

/-- `classify_media(filename)`. -/
def classify_media (filename : String) : String :=
  let ext := afterLastDot (pyLower filename)
  if ext ∈ (["jpg", "jpeg", "png", "gif", "webp"] : List String) then "image"
  else if ext ∈ (["mp4", "mov", "mkv", "webm"] : List String) then "video"
  else if ext ∈ (["opus", "ogg", "mp3", "wav", "m4a"] : List String) then "audio"
  else if ext = "pdf" then "pdf"
  else "file"

/-- Worker for `findOccurrences`; the fuel starts above the haystack
length, which is enough because every step consumes at least one
character of the remaining haystack (for a nonempty needle). -/
def occsAux (needle : List Char) : Nat → Nat → List Char → List (Nat × Nat)
  | 0, _, _ => []
  | fuel + 1, pos, rest =>
    match rest with
    | [] => []
    | c :: r =>
      if needle.isPrefixOf (c :: r) then
        (pos, pos + needle.length) ::
          occsAux needle fuel (pos + needle.length) (List.drop (needle.length - 1) r)
      else occsAux needle fuel (pos + 1) r

/-- All occurrences of one media key in the lowercased message text, as
found by the `while True: idx = lower_text.find(fname_lower, start)`
loop: scan left to right, resume right after each match.  (Python's
`find` with an empty needle would loop forever; media-index keys are
never empty, and the model returns no occurrences then.) -/
def findOccurrences (hay needle : List Char) : List (Nat × Nat) :=
  if needle.isEmpty then [] else occsAux needle (hay.length + 1) 0 hay

/-- The occurrence-collection loop of `render_message_html`: per-key
occurrence lists concatenated in dict iteration order. -/
def allOccurrences (textLower : List Char) (mediaIndex : List (String × String)) :
    List (Nat × Nat × String) :=
  mediaIndex.foldl (fun occs kv =>
    occs ++ (findOccurrences textLower kv.1.data).map (fun p => (p.1, p.2, kv.1))) []

/-- Insert an occurrence after all entries with start ≤ its start. -/
def insertByStart (x : Nat × Nat × String) : List (Nat × Nat × String) →
    List (Nat × Nat × String)
  | [] => [x]
  | y :: r => if y.1 ≤ x.1 then y :: insertByStart x r else x :: y :: r

/-- Python's `occurrences.sort(key=lambda x: x[0])`: a stable sort by
start offset, modelled by stable insertion (elements with equal starts
keep their collection order). -/
def sortByStart (l : List (Nat × Nat × String)) : List (Nat × Nat × String) :=
  l.foldl (fun acc x => insertByStart x acc) []

/-- Python slice `text[a:b]` for nonnegative bounds. -/
def pySlice (l : List Char) (a b : Nat) : List Char :=
  (l.take b).drop a

/-- The image block emitted by the renderer (adjacent f-string literals
concatenate without separators). -/
def imageBlock (src : String) : String :=
  "<div class=\"media\">  <a href=\"" ++ src ++ "\" target=\"_blank\">    <img src=\"" ++
    src ++ "\" loading=\"lazy\" />  </a></div>"

/-- The video block emitted by the renderer. -/
def videoBlock (src : String) : String :=
  "<div class=\"media\"><video controls preload=\"metadata\"><source src=\"" ++ src ++
    "\">Your browser does not support video.</video></div>"

/-- The audio block emitted by the renderer. -/
def audioBlock (src transcriptionHtml : String) : String :=
  "<div class=\"media audio-wrap\"><audio controls preload=\"metadata\"><source src=\"" ++
    src ++ "\">Your browser does not support audio.</audio>" ++ transcriptionHtml ++ "</div>"

/-- The pdf block emitted by the renderer. -/
def pdfBlock (src filename : String) : String :=
  "<div class=\"media pdf\"><a href=\"" ++ src ++
    "\" target=\"_blank\">  <div class=\"pdf-thumb\">📄</div>  <div class=\"pdf-name\">" ++
    htmlEscape filename ++ "</div></a></div>"

/-- The generic download block emitted by the renderer. -/
def fileBlock (src filename : String) : String :=
  "<div class=\"media file\">  <a href=\"" ++ src ++ "\" download>    📦 " ++
    htmlEscape filename ++ "  </a></div>"

/-- One media segment of the renderer: classify by extension and emit
the corresponding block; for audio, attach the transcription caption
when one exists for the key. -/
def mediaPart (filename fnameLower rel : String)
    (transcriptions : Option (List (String × String))) : String :=
  let src := htmlEscape rel
  let mt := classify_media filename
  if mt = "image" then imageBlock src
  else if mt = "video" then videoBlock src
  else if mt = "audio" then
    let transcriptionHtml :=
      match transcriptions with
      | none => ""
      | some tmap =>
        match lookupD tmap fnameLower with
        | some v => "<div class=\"transcription\">" ++ htmlEscape v ++ "</div>"
        | none => ""
    audioBlock src transcriptionHtml
  else if mt = "pdf" then pdfBlock src filename
  else fileBlock src filename

/-- The segment-emission loop of `render_message_html`, producing the
`parts` list: before-spans, media blocks, and the trailing text with
the two attachment phrases stripped.  `cur` is the cursor of the
Python loop.  (The `media_index[fname_lower]` lookup cannot fail in
the source because occurrence keys come from the same dict; the model
defaults to the empty path.) -/
def renderOccs (text : List Char) (mediaIndex : List (String × String))
    (transcriptions : Option (List (String × String))) :
    Nat → List (Nat × Nat × String) → List String
  | cur, [] =>
    if cur < text.length then
      let after0 : String := ⟨List.drop cur text⟩
      let after1 := pyStrip (pyReplace after0 "(arquivo anexado)" "")
      let after2 := pyStrip (pyReplace after1 "(file attached)" "")
      if after2 = "" then [] else ["<span>" ++ htmlEscape after2 ++ "</span>"]
    else []
  | cur, (st, en, key) :: rest =>
    let beforeParts : List String :=
      if st > cur then
        let before : String := ⟨pySlice text cur st⟩
        if before = "" then [] else ["<span>" ++ htmlEscape before ++ "</span>"]
      else []
    let filename : String := ⟨pySlice text st en⟩
    let relPath := (lookupD mediaIndex key).getD ""
    beforeParts ++
      (mediaPart filename key relPath transcriptions ::
        renderOccs text mediaIndex transcriptions en rest)

/-- `render_message_html(msg, media_index, sender_classes,
transcriptions)`: returns the message block string. -/
def render_message_html (msg : Message) (mediaIndex : List (String × String))
    (senderClasses : List (String × String))
    (transcriptions : Option (List (String × String))) : String :=
  let sender := msg.sender
  let senderClass := (lookupD senderClasses sender).getD "received"
  let text := msg.text
  let lowerText := (pyLower text).data
  let occurrences := sortByStart (allOccurrences lowerText mediaIndex)
  let contentHtml :=
    match occurrences with
    | [] => "<span>" ++ htmlEscape text ++ "</span>"
    | _ :: _ => String.join (renderOccs text.data mediaIndex transcriptions 0 occurrences)
  let timestamp := pyStrip (htmlEscape msg.date ++ " " ++ htmlEscape msg.time)
  let senderHtml := if sender = "" then "System" else htmlEscape sender
  "\n    <div class=\"message " ++ senderClass ++
    "\">\n        <div class=\"bubble\">\n            <div class=\"meta\">\n                <span class=\"sender\">" ++
    senderHtml ++
    "</span>\n                <span class=\"time\">" ++ timestamp ++
    "</span>\n            </div>\n            <div class=\"text\">\n                " ++
    contentHtml ++
    "\n            </div>\n        </div>\n    </div>\n    "

/-- `load_transcriptions(media_dir, media_index, output_html_path)`.
The filesystem is an explicit map from path to file content
(`fs p = some c` iff `os.path.isfile(p)` holds and reading yields `c`),
and `fullOf rel` stands for
`os.path.normpath(os.path.join(output_dir, rel_path))` — the host path
arithmetic is an input of the model.  For each audio-extension key the
corrected sidecar `<asset>.txt` is preferred over the raw
`<asset>.original.txt`; file contents are stripped; a missing sidecar
just leaves the key absent. -/
def loadStep (fs : String → Option String) (fullOf : String → String)
    (acc : List (String × String)) (kv : String × String) : List (String × String) :=
  if afterLastDot kv.1 ∈ AUDIO_EXTS then
    match fs (if (fs (fullOf kv.2 ++ ".txt")).isSome then fullOf kv.2 ++ ".txt"
              else fullOf kv.2 ++ ".original.txt") with
    | some content => dictInsert kv.1 (pyStrip content) acc
    | none => acc
  else acc

/-- See `loadStep` for the loop body. -/
def load_transcriptions (fs : String → Option String)
    (mediaIndex : List (String × String)) (fullOf : String → String) :
    List (String × String) :=
  mediaIndex.foldl (loadStep fs fullOf) []

/-- The `css` literal of `generate_html`, transcribed exactly. -/
def viewerCss : String :=
  "\n    body \x7b\n        margin: 0;\n        font-family: -apple-system, BlinkMacSystemFont, \"Segoe UI\", sans-serif;\n        background: #ece5dd;\n    \x7d\n    .chat-container \x7b\n        max-width: 800px;\n        margin: 0 auto;\n        height: 100vh;\n        display: flex;\n        flex-direction: column;\n    \x7d\n    .chat-header \x7b\n        background: #075E54;\n        color: white;\n        padding: 12px 16px;\n        font-weight: 500;\n        display: flex;\n        align-items: center;\n        gap: 8px;\n    \x7d\n    .chat-header .title \x7b\n        font-size: 16px;\n    \x7d\n    .chat-body \x7b\n        flex: 1;\n        padding: 10px;\n        overflow-y: auto;\n        background: #ece5dd;\n    \x7d\n    .message \x7b\n        display: flex;\n        margin-bottom: 6px;\n    \x7d\n    .message.sent \x7b\n        justify-content: flex-end;\n    \x7d\n    .message.received \x7b\n        justify-content: flex-start;\n    \x7d\n    .bubble \x7b\n        max-width: 70%;\n        padding: 6px 8px;\n        border-radius: 8px;\n        font-size: 14px;\n        position: relative;\n        box-shadow: 0 1px 0.5px rgba(0,0,0,0.13);\n        background: #ffffff;\n    \x7d\n    .message.sent .bubble \x7b\n        background: #dcf8c6;\n    \x7d\n    .meta \x7b\n        display: flex;\n        justify-content: space-between;\n        font-size: 11px;\n        color: #667781;\n        margin-bottom: 4px;\n    \x7d\n    .text span \x7b\n        white-space: pre-wrap;\n        word-wrap: break-word;\n    \x7d\n    .media \x7b\n        margin-top: 4px;\n        margin-bottom: 4px;\n    \x7d\n    .media img \x7b\n        max-width: 260px;\n        max-height: 260px;\n        border-radius: 6px;\n        display: block;\n    \x7d\n    .media video,\n    .media audio \x7b\n        width: 260px;\n        max-width: 100%;\n        outline: none;\n    \x7d\n    .transcription \x7b\n        font-size: 13px;\n        font-style: italic;\n        color: #667781;\n        margin-top: 4px;\n        white-space: pre-wrap;\n        word-wrap: break-word;\n    \x7d\n    .media.pdf a \x7b\n        display: flex;\n        align-items: center;\n        gap: 8px;\n        text-decoration: none;\n        color: inherit;\n    \x7d\n    .pdf-thumb \x7b\n        width: 32px;\n        height: 40px;\n        border-radius: 4px;\n        background: #f44336;\n        color: white;\n        display: flex;\n        align-items: center;\n        justify-content: center;\n        font-size: 20px;\n    \x7d\n    .pdf-name \x7b\n        font-size: 13px;\n        word-break: break-all;\n    \x7d\n    "

/-- The document template of `generate_html` up to the title hole. -/
def docPre : String :=
  "<!DOCTYPE html>\n<html lang=\"pt-BR\">\n<head>\n    <meta charset=\"utf-8\" />\n    <title>"

/-- The document template between the title and the stylesheet. -/
def docTitleStyle : String :=
  "</title>\n    <meta name=\"viewport\" content=\"width=device-width, initial-scale=1\" />\n    <style>\n    "

/-- The document template between the stylesheet and the message body. -/
def docBodyOpen : String :=
  "\n    </style>\n</head>\n<body>\n    <div class=\"chat-container\">\n        <div class=\"chat-header\">\n            <div class=\"title\">WhatsApp chat</div>\n        </div>\n        <div class=\"chat-body\">\n            "

/-- The document template after the message body (exclusive-playback script and closing tags). -/
def docTail : String :=
  "\n        </div>\n    </div>\n    <script>\n    document.addEventListener(\x27play\x27, function(e) \x7b\n        var audios = document.querySelectorAll(\x27audio, video\x27);\n        for (var i = 0; i < audios.length; i++) \x7b\n            if (audios[i] !== e.target) \x7b\n                audios[i].pause();\n            \x7d\n        \x7d\n    \x7d, true);\n    </script>\n</body>\n</html>\n"

/-- `generate_html(messages, media_index, output_path, me_name,
transcriptions)`: returns the full document string (the final
`f.write` is the caller's concern); `now` is the
`datetime.now().strftime(...)` timestamp read inside the function,
made an explicit input of the model. -/
def generate_html (messages : List Message) (mediaIndex : List (String × String))
    (me : Option String) (transcriptions : Option (List (String × String)))
    (now : String) : String :=
  docPre ++ (htmlEscape ("WhatsApp chat - generated " ++ now) ++ (docTitleStyle ++
    (viewerCss ++ (docBodyOpen ++
      (String.intercalate "\n" (messages.map (fun m =>
        render_message_html m mediaIndex (build_sender_classes messages me)
          transcriptions)) ++ docTail)))))

/-! ## Theorems -/

example : matchMessage "20/06/2025, 23:29 - John: hi there" =
    some ("20/06/2025", "23:29", "John", "hi there") := by decide

example : matchMessage "20/06/2025, 23:29 - Messages are encrypted." = none := by decide

example : matchSystem "20/06/2025, 23:29 - Messages are encrypted." =
    some ("20/06/2025", "23:29", "Messages are encrypted.") := by decide

example : matchMessage "1/1/25 1:11 pm - a:b: c" =
    some ("1/1/25", "1:11 pm", "a:b", "c") := by decide

example : matchMessage "hello" = none := by decide

example : parse_chat ["hello"] = [⟨"", "", "", "hello"⟩] := by decide

theorem updateLastMsg_length (f : Message → Message) :
    (l : List Message) → (updateLastMsg f l).length = l.length
  | [] => rfl
  | [_] => rfl
  | _ :: b :: r => by
    simp only [updateLastMsg, List.length_cons]
    rw [updateLastMsg_length f (b :: r)]
    simp

theorem updateLastMsg_eq (f : Message → Message) :
    (l : List Message) → (h : l ≠ []) → updateLastMsg f l = l.dropLast ++ [f (l.getLast h)]
  | [], h => absurd rfl h
  | [_], _ => rfl
  | a :: b :: r, hx => by
    have ih := updateLastMsg_eq f (b :: r) (List.cons_ne_nil b r)
    show a :: updateLastMsg f (b :: r) =
      (a :: b :: r).dropLast ++ [f ((a :: b :: r).getLast hx)]
    rw [ih]
    have hg : (a :: b :: r).getLast hx = (b :: r).getLast (List.cons_ne_nil b r) :=
      List.getLast_cons (List.cons_ne_nil b r)
    rw [hg]
    rfl

theorem processLine_length (msgs : List Message) (line : String) :
    (processLine msgs line).length =
      if isHeaderLine line || msgs.isEmpty then msgs.length + 1 else msgs.length := by
  unfold processLine isHeaderLine
  cases hm : matchMessage line with
  | some v => obtain ⟨d, t, sn, tx⟩ := v; simp [hm]
  | none =>
    cases hs : matchSystem line with
    | some v => obtain ⟨d, t, tx⟩ := v; simp [hm, hs]
    | none =>
      cases msgs with
      | nil => simp [hm, hs]
      | cons a r => simp [hm, hs, updateLastMsg_length]

theorem processLine_ne_nil (msgs : List Message) (line : String) :
    processLine msgs line ≠ [] := by
  unfold processLine
  cases hm : matchMessage line with
  | some v => obtain ⟨d, t, sn, tx⟩ := v; simp
  | none =>
    cases hs : matchSystem line with
    | some v => obtain ⟨d, t, tx⟩ := v; simp
    | none =>
      cases msgs with
      | nil => simp
      | cons a r => cases r <;> simp [updateLastMsg]

theorem foldl_processLine_length :
    ∀ (rest : List String) (msgs : List Message), msgs ≠ [] →
      (rest.foldl processLine msgs).length = msgs.length + rest.countP isHeaderLine
  | [], _, _ => by simp
  | l :: rest, msgs, h => by
    have ih := foldl_processLine_length rest (processLine msgs l) (processLine_ne_nil msgs l)
    have hne : msgs.isEmpty = false := by
      cases msgs with
      | nil => exact absurd rfl h
      | cons a r => rfl
    rw [List.foldl_cons, ih, processLine_length, List.countP_cons, hne]
    simp only [Bool.or_false]
    cases hh : isHeaderLine l
    all_goals simp
    all_goals omega

/-- C2, amended: for every list of input lines, `parse_chat` produces at
most one record per line; the number of records equals the number of
lines precisely when every line after the first is a header line (the
first line may instead open an orphan record, which also counts one). -/
theorem c2_record_count (lines : List String) :
    (parse_chat lines).length ≤ lines.length ∧
    ((parse_chat lines).length = lines.length ↔
      ∀ l ∈ lines.drop 1, isHeaderLine l = true) := by
  cases lines with
  | nil => simp [parse_chat]
  | cons l rest =>
    have h1 : processLine [] l ≠ [] := processLine_ne_nil [] l
    have hlen1 : (processLine [] l).length = 1 := by
      rw [processLine_length]; simp
    have h2 := foldl_processLine_length rest (processLine [] l) h1
    rw [hlen1] at h2
    have hcle := List.countP_le_length (p := isHeaderLine) (l := rest)
    have hpc : parse_chat (l :: rest) = rest.foldl processLine (processLine [] l) := rfl
    constructor
    · rw [hpc, h2]; simp only [List.length_cons]; omega
    · rw [hpc, h2]
      simp only [List.length_cons, List.drop_succ_cons, List.drop_zero]
      constructor
      · intro he
        exact List.countP_eq_length.mp (by omega)
      · intro hall
        have := List.countP_eq_length.mpr hall
        omega

/-- C2, counterexample: the single-line transcript `["hello"]` yields
exactly one record (the orphan fallback), so record count equals line
count although the line matches neither header pattern. -/
theorem c2_counterexample :
    (parse_chat ["hello"]).length = (["hello"] : List String).length ∧
    ¬ (∀ l ∈ (["hello"] : List String), isHeaderLine l = true) := by decide

/-- C3: a line matching neither header pattern, arriving while a record
is open (the record list is nonempty), appends `"\n" ++ line` to the
open record's text, keeping the line exactly, and appends no new
record. -/
theorem c3_continuation (msgs : List Message) (line : String) (h : msgs ≠ [])
    (hm : matchMessage line = none) (hs : matchSystem line = none) :
    processLine msgs line =
      msgs.dropLast ++
        [{ msgs.getLast h with text := (msgs.getLast h).text ++ "\n" ++ line }] ∧
    (processLine msgs line).length = msgs.length := by
  constructor
  · unfold processLine
    rw [hm, hs]
    cases msgs with
    | nil => exact absurd rfl h
    | cons a r =>
      exact updateLastMsg_eq (fun m => { m with text := m.text ++ "\n" ++ line }) (a :: r) h
  · rw [processLine_length]
    have hh : isHeaderLine line = false := by simp [isHeaderLine, hm, hs]
    have hne : msgs.isEmpty = false := by
      cases msgs with
      | nil => exact absurd rfl h
      | cons a r => rfl
    simp [hh, hne]

/-- Witness for C3 at a concrete open record and continuation line. -/
theorem c3_witness :
    matchMessage "  second line " = none ∧ matchSystem "  second line " = none ∧
    processLine [⟨"20/06/2025", "23:29", "John", "hi"⟩] "  second line " =
      [⟨"20/06/2025", "23:29", "John", "hi\n  second line "⟩] := by
  refine ⟨by decide, by decide, ?_⟩
  have h := (c3_continuation [⟨"20/06/2025", "23:29", "John", "hi"⟩] "  second line "
      (by simp) (by decide) (by decide)).1
  exact h.trans (by decide)

theorem optionOrElse_isSome {α} (x y : Option α) :
    (x <|> y).isSome = (x.isSome || y.isSome) := by
  cases x <;> rfl

theorem optionMap_isSome {α β} (f : α → β) (x : Option α) :
    (x.map f).isSome = x.isSome := by
  cases x <;> rfl

theorem amPmWs_isSome_mono {α β} (t rest : List Char) (k₁ : List Char → Option α)
    (k₂ : List Char → Option β) (hk : ∀ r, (k₁ r).isSome = true → (k₂ r).isSome = true) :
    (amPmWs t rest k₁).isSome = true → (amPmWs t rest k₂).isSome = true := by
  unfold amPmWs
  rcases rest with _ | ⟨w, _ | ⟨c1, _ | ⟨c2, r⟩⟩⟩
  · simp
  · simp
  · simp
  · by_cases hc : isPyWs w ∧ isAmPmChar c1 ∧ isAmPmChar c2
    · simp only [if_pos hc, optionMap_isSome]
      exact hk r
    · simp [hc]

theorem amPmDirect_isSome_mono {α β} (t rest : List Char) (k₁ : List Char → Option α)
    (k₂ : List Char → Option β) (hk : ∀ r, (k₁ r).isSome = true → (k₂ r).isSome = true) :
    (amPmDirect t rest k₁).isSome = true → (amPmDirect t rest k₂).isSome = true := by
  unfold amPmDirect
  rcases rest with _ | ⟨c1, _ | ⟨c2, r⟩⟩
  · simp
  · simp
  · by_cases hc : isAmPmChar c1 ∧ isAmPmChar c2
    · simp only [if_pos hc, optionMap_isSome]
      exact hk r
    · simp [hc]

theorem timeAndThen_isSome_mono {α β} (s : List Char) (k₁ : List Char → Option α)
    (k₂ : List Char → Option β) (hk : ∀ r, (k₁ r).isSome = true → (k₂ r).isSome = true) :
    (timeAndThen s k₁).isSome = true → (timeAndThen s k₂).isSome = true := by
  unfold timeAndThen
  cases htc : timeCore s with
  | none => simp
  | some p =>
    obtain ⟨t, rest⟩ := p
    simp only [optionOrElse_isSome, optionMap_isSome, Bool.or_eq_true]
    rintro (h | h | h)
    · exact Or.inl (amPmWs_isSome_mono t rest k₁ k₂ hk h)
    · exact Or.inr (Or.inl (amPmDirect_isSome_mono t rest k₁ k₂ hk h))
    · exact Or.inr (Or.inr (hk rest h))

theorem matchSystem_isSome_of_matchMessage (line d t sn tx : String)
    (h : matchMessage line = some (d, t, sn, tx)) : (matchSystem line).isSome = true := by
  cases hd : matchDate line.data with
  | none => simp [matchMessage, hd] at h
  | some p =>
    obtain ⟨dd, s1⟩ := p
    cases hc : commaWs s1 with
    | none => simp [matchMessage, hd, hc] at h
    | some s2 =>
      have hmono : ∀ r, ((match sepHyphen r with
          | none => none
          | some r2 => senderText r2 : Option (String × String))).isSome = true →
          ((match sepHyphen r with
          | none => none
          | some r2 => some (⟨r2⟩ : String) : Option String)).isSome = true := by
        intro r
        cases hsep : sepHyphen r <;> simp
      cases ht : timeAndThen s2 (fun r =>
          match sepHyphen r with
          | none => none
          | some r2 => senderText r2) with
      | none => simp [matchMessage, hd, hc, ht] at h
      | some p2 =>
        have hsome : (timeAndThen s2 (fun r =>
            match sepHyphen r with
            | none => none
            | some r2 => senderText r2)).isSome = true := by rw [ht]; rfl
        have h2 := timeAndThen_isSome_mono s2
          (fun r => match sepHyphen r with
            | none => none
            | some r2 => senderText r2)
          (fun r => match sepHyphen r with
            | none => none
            | some r2 => some (⟨r2⟩ : String))
          hmono hsome
        cases ht2 : timeAndThen s2 (fun r =>
            match sepHyphen r with
            | none => none
            | some r2 => some (⟨r2⟩ : String)) with
        | none => rw [ht2] at h2; exact absurd h2 (by simp)
        | some q => simp [matchSystem, hd, hc, ht2]

/-- C4, amended: a line matched by `MESSAGE_RE` is always turned into a
user message built from the four captured groups (the captured sender
may be the empty string, e.g. for a literal `- : ` body), and the
system-notice classification is never used for it even though
`SYSTEM_RE` also matches every such line: the parser consults
`SYSTEM_RE` only after `MESSAGE_RE` fails. -/
theorem c4_message_priority (line d t sn tx : String)
    (h : matchMessage line = some (d, t, sn, tx)) :
    (∀ msgs, processLine msgs line =
        msgs ++ [{ date := pyStrip d, time := pyStrip t, sender := pyStrip sn, text := tx }]) ∧
    (matchSystem line).isSome = true := by
  constructor
  · intro msgs
    unfold processLine
    rw [h]
  · exact matchSystem_isSome_of_matchMessage line d t sn tx h

/-- C4 counterexample (to the "non-empty sender" part of the claim):
this line matches `MESSAGE_RE` with an empty captured sender, and the
parser appends the corresponding record with an empty sender. -/
theorem c4_counterexample :
    matchMessage "1/1/25, 1:11 - : hi" = some ("1/1/25", "1:11", "", "hi") ∧
    processLine [] "1/1/25, 1:11 - : hi" =
      [{ date := "1/1/25", time := "1:11", sender := "", text := "hi" }] := by decide

/-- Witness for C4 at a concrete message-header line. -/
theorem c4_witness :
    processLine [] "20/06/2025, 23:29 - John: hi there" =
      [{ date := "20/06/2025", time := "23:29", sender := "John", text := "hi there" }] ∧
    (matchSystem "20/06/2025, 23:29 - John: hi there").isSome = true := by
  have h := c4_message_priority "20/06/2025, 23:29 - John: hi there"
    "20/06/2025" "23:29" "John" "hi there" (by decide)
  exact ⟨(h.1 []).trans (by decide), h.2⟩

theorem lookupD_dictInsert (k v k2 : String) :
    (d : List (String × String)) →
      lookupD (dictInsert k v d) k2 = if k = k2 then some v else lookupD d k2
  | [] => rfl
  | (k3, v3) :: r => by
    have ih := lookupD_dictInsert k v k2 r
    by_cases h3 : k3 = k
    · subst h3
      simp only [dictInsert, if_pos rfl, lookupD]
      split_ifs <;> rfl
    · simp only [dictInsert, if_neg h3, lookupD, ih]
      by_cases h1 : k3 = k2
      · by_cases h2 : k = k2
        · exact absurd (h1.trans h2.symm) h3
        · simp [h1, h2]
      · by_cases h2 : k = k2
        · simp [h1, h2]
        · simp [h1, h2]

theorem mem_dictInsert (p : String × String) (k v : String) :
    (d : List (String × String)) → p ∈ dictInsert k v d → p.1 = k ∨ p ∈ d
  | [], h => by
    simp [dictInsert] at h
    subst h
    exact Or.inl rfl
  | (k2, v2) :: r, h => by
    by_cases h2 : k2 = k
    · subst h2
      simp [dictInsert] at h
      rcases h with h | h
      · subst h; exact Or.inl rfl
      · exact Or.inr (List.mem_cons_of_mem _ h)
    · simp [dictInsert, h2] at h
      rcases h with h | h
      · subst h; exact Or.inr (List.mem_cons_self _ _)
      · rcases mem_dictInsert p k v r h with h3 | h3
        · exact Or.inl h3
        · exact Or.inr (List.mem_cons_of_mem _ h3)

theorem getLast_of_cons_ne_none (a : ScannedFile) :
    (l : List ScannedFile) → (a :: l).getLast? ≠ none
  | [] => by simp
  | b :: r => by
    rw [List.getLast?_cons_cons]
    exact getLast_of_cons_ne_none b r

theorem build_media_lookup_general (k : String) :
    ∀ (files : List ScannedFile) (acc : List (String × String)),
      lookupD (files.foldl (fun index f =>
          if keepMediaFile f.name then dictInsert (pyLower f.name) (normSlash f.rel) index
          else index) acc) k =
        match (files.filter (fun f => keepMediaFile f.name && (pyLower f.name == k))).getLast? with
        | some f => some (normSlash f.rel)
        | none => lookupD acc k
  | [], acc => by simp
  | f :: rest, acc => by
    have ih := build_media_lookup_general k rest
    by_cases hk : keepMediaFile f.name
    · by_cases he : pyLower f.name = k
      · have hp : (keepMediaFile f.name && (pyLower f.name == k)) = true := by
          simp [hk, he]
        rw [List.foldl_cons, if_pos hk, ih]
        cases hfr : List.filter (fun f => keepMediaFile f.name && (pyLower f.name == k)) rest with
        | nil => simp [List.filter_cons, hp, hk, hfr, lookupD_dictInsert, he]
        | cons g gr =>
          have hfc : List.filter (fun f => keepMediaFile f.name && (pyLower f.name == k)) (f :: rest) =
              f :: List.filter (fun f => keepMediaFile f.name && (pyLower f.name == k)) rest := by
            simp [List.filter_cons, hp]
          rw [hfc, hfr, List.getLast?_cons_cons]
          obtain ⟨x, hx⟩ := Option.ne_none_iff_exists.mp (getLast_of_cons_ne_none g gr)
          rw [← hx]
      · have hp : (keepMediaFile f.name && (pyLower f.name == k)) = false := by
          simp [he]
        rw [List.foldl_cons, if_pos hk, ih]
        cases hfr : List.filter (fun f => keepMediaFile f.name && (pyLower f.name == k)) rest with
        | nil => simp [List.filter_cons, hp, hk, hfr, lookupD_dictInsert, he]
        | cons g gr =>
          have hfc : List.filter (fun f => keepMediaFile f.name && (pyLower f.name == k)) (f :: rest) =
              List.filter (fun f => keepMediaFile f.name && (pyLower f.name == k)) rest := by
            simp [List.filter_cons, hp]
          rw [hfc, hfr]
          obtain ⟨x, hx⟩ := Option.ne_none_iff_exists.mp (getLast_of_cons_ne_none g gr)
          rw [← hx]
    · have hp : (keepMediaFile f.name && (pyLower f.name == k)) = false := by
        simp [hk]
      rw [List.foldl_cons, if_neg hk, ih]
      simp [List.filter_cons, hp]

theorem build_media_keys_general :
    ∀ (files : List ScannedFile) (acc : List (String × String)),
      ∀ p ∈ files.foldl (fun index f =>
          if keepMediaFile f.name then dictInsert (pyLower f.name) (normSlash f.rel) index
          else index) acc,
        p ∈ acc ∨ ∃ f, f ∈ files ∧ keepMediaFile f.name = true ∧ p.1 = pyLower f.name
  | [], acc => by simp
  | f :: rest, acc => by
    intro p hp
    have ih := build_media_keys_general rest
      (if keepMediaFile f.name then dictInsert (pyLower f.name) (normSlash f.rel) acc else acc)
      p (by simpa using hp)
    rcases ih with h | ⟨g, hg, hkg, hpg⟩
    · by_cases hk : keepMediaFile f.name
      · rw [if_pos hk] at h
        rcases mem_dictInsert p (pyLower f.name) (normSlash f.rel) acc h with h2 | h2
        · exact Or.inr ⟨f, List.mem_cons_self _ _, hk, h2⟩
        · exact Or.inl h2
      · rw [if_neg hk] at h
        exact Or.inl h
    · exact Or.inr ⟨g, List.mem_cons_of_mem _ hg, hkg, hpg⟩

/-- C5: every key of the media index is the lowercased name of some
scanned file, and looking a key up yields the slash-normalized relative
path of the **last** file in traversal order whose lowercased name is
that key (last-write-wins for files sharing a lowercase name). -/
theorem c5_media_index (files : List ScannedFile) (k : String) :
    (∀ p ∈ build_media_index files, ∃ f, f ∈ files ∧ p.1 = pyLower f.name) ∧
    lookupD (build_media_index files) k =
      ((files.filter (fun f => keepMediaFile f.name && (pyLower f.name == k))).getLast?).map
        (fun f => normSlash f.rel) := by
  constructor
  · intro p hp
    rcases build_media_keys_general files [] p hp with h | ⟨f, hf, _, hpf⟩
    · simp at h
    · exact ⟨f, hf, hpf⟩
  · have h := build_media_lookup_general k files []
    rw [build_media_index, h]
    cases (files.filter (fun f => keepMediaFile f.name && (pyLower f.name == k))).getLast? with
    | none => rfl
    | some f => rfl

/-- C10: files whose name contains no dot are skipped by the media
indexer — removing them from the walk does not change the index at all
— even though a dotless name like `"jpg"` would pass the
extension rule (`rsplit` returns the whole name, which is a recognized
extension). -/
theorem c10_dotless_skipped (files : List ScannedFile) :
    build_media_index files =
      build_media_index (files.filter (fun f => f.name.data.contains '.')) ∧
    MEDIA_EXTS.contains (pyLower (afterLastDot "jpg")) = true ∧
    build_media_index [{ name := "jpg", rel := "pics/jpg" }] = [] := by
  refine ⟨?_, by decide, by decide⟩
  show List.foldl _ [] files = List.foldl _ [] (files.filter _)
  generalize ([] : List (String × String)) = acc
  induction files generalizing acc with
  | nil => rfl
  | cons f rest ih =>
    by_cases hd : f.name.data.contains '.'
    · have hd2 : ('.' : Char) ∈ f.name.data := by simpa using hd
      rw [show List.filter (fun f => f.name.data.contains '.') (f :: rest) =
          f :: List.filter (fun f => f.name.data.contains '.') rest from by
            simp [List.filter_cons, hd2]]
      rw [List.foldl_cons, List.foldl_cons]
      exact ih _
    · have hd2 : ('.' : Char) ∉ f.name.data := by simpa using hd
      have hk : keepMediaFile f.name = false := by
        unfold keepMediaFile
        rw [Bool.and_eq_false_iff]
        exact Or.inl (by simpa using hd)
      rw [show List.filter (fun f => f.name.data.contains '.') (f :: rest) =
          List.filter (fun f => f.name.data.contains '.') rest from by
            simp [List.filter_cons, hd2]]
      rw [List.foldl_cons, if_neg (by simp [hk])]
      exact ih _

theorem dictInsert_append (k v : String) :
    (d : List (String × String)) → lookupD d k = none → dictInsert k v d = d ++ [(k, v)]
  | [], _ => rfl
  | (k2, v2) :: r, h => by
    by_cases h2 : k2 = k
    · rw [lookupD, if_pos h2] at h
      exact absurd h (by simp)
    · rw [lookupD, if_neg h2] at h
      have ih := dictInsert_append k v r h
      simp [dictInsert, h2, ih]

theorem filter_lookup_insert (s v : String) (classes : List (String × String))
    (L : List String) :
    L.filter (fun x => lookupD (dictInsert s v classes) x = none) =
      (L.filter (fun x => lookupD classes x = none)).filter (fun x => x ≠ s) := by
  rw [List.filter_filter]
  apply List.filter_congr
  intro x hx
  rw [lookupD_dictInsert]
  by_cases hsx : s = x
  · simp [hsx]
  · simp only [if_neg hsx]
    simp
    intro _ he
    exact hsx he.symm

theorem senderAuto_phase3 (f sec : String) :
    ∀ (msgs : List Message) (classes : List (String × String)),
      senderClassesAuto (some f) (some sec) classes msgs =
        classes ++
          (dedupFirst (((msgs.map Message.sender).filter (fun s => s ≠ "")).filter
            (fun s => lookupD classes s = none))).map (fun s => (s, "received"))
  | [], classes => by simp [senderClassesAuto, dedupFirst]
  | m :: rest, classes => by
    by_cases hs : m.sender = ""
    · rw [show senderClassesAuto (some f) (some sec) classes (m :: rest) =
          senderClassesAuto (some f) (some sec) classes rest from by
            simp [senderClassesAuto, hs]]
      rw [senderAuto_phase3 f sec rest classes]
      simp [List.filter_cons, hs]
    · by_cases hl : lookupD classes m.sender = none
      · rw [show senderClassesAuto (some f) (some sec) classes (m :: rest) =
            senderClassesAuto (some f) (some sec)
              (dictInsert m.sender "received" classes) rest from by
              simp [senderClassesAuto, hs, hl]]
        rw [senderAuto_phase3 f sec rest (dictInsert m.sender "received" classes)]
        rw [filter_lookup_insert, dictInsert_append _ _ _ hl]
        have hrhs : ((m.sender :: rest.map Message.sender).filter (fun s => s ≠ "")).filter
            (fun s => lookupD classes s = none) =
            m.sender :: ((rest.map Message.sender).filter (fun s => s ≠ "")).filter
              (fun s => lookupD classes s = none) := by
          simp [List.filter_cons, hs, hl]
        rw [List.map_cons, hrhs, dedupFirst, List.map_cons]
        simp [List.append_assoc]
      · rw [show senderClassesAuto (some f) (some sec) classes (m :: rest) =
            senderClassesAuto (some f) (some sec) classes rest from by
              simp [senderClassesAuto, hs, hl]]
        rw [senderAuto_phase3 f sec rest classes]
        have hrhs : ((m.sender :: rest.map Message.sender).filter (fun s => s ≠ "")).filter
            (fun s => lookupD classes s = none) =
            ((rest.map Message.sender).filter (fun s => s ≠ "")).filter
              (fun s => lookupD classes s = none) := by
          simp [List.filter_cons, hs, hl]
        rw [List.map_cons, hrhs]

theorem senderAuto_phase2 (f : String) :
    ∀ (msgs : List Message),
      senderClassesAuto (some f) none [(f, "received")] msgs =
        (f, "received") ::
          (match dedupFirst (((msgs.map Message.sender).filter (fun s => s ≠ "")).filter
              (fun s => s ≠ f)) with
            | [] => []
            | b :: others => (b, "sent") :: others.map (fun s => (s, "received")))
  | [] => by simp [senderClassesAuto, dedupFirst]
  | m :: rest => by
    by_cases hs : m.sender = ""
    · rw [show senderClassesAuto (some f) none [(f, "received")] (m :: rest) =
          senderClassesAuto (some f) none [(f, "received")] rest from by
            simp [senderClassesAuto, hs]]
      rw [senderAuto_phase2 f rest]
      simp [List.filter_cons, hs]
    · by_cases hf : m.sender = f
      · rw [show senderClassesAuto (some f) none [(f, "received")] (m :: rest) =
            senderClassesAuto (some f) none [(f, "received")] rest from by
              simp [senderClassesAuto, hs, hf, lookupD]]
        rw [senderAuto_phase2 f rest]
        have hf0 : ¬ f = "" := by rw [← hf]; exact hs
        simp [List.filter_cons, hs, hf, hf0]
      · have hfs : ¬ f = m.sender := fun he => hf he.symm
        rw [show senderClassesAuto (some f) none [(f, "received")] (m :: rest) =
            senderClassesAuto (some f) (some m.sender)
              (dictInsert m.sender "sent" [(f, "received")]) rest from by
              simp [senderClassesAuto, hs, hf]]
        have hins : dictInsert m.sender "sent" [(f, "received")] =
            [(f, "received"), (m.sender, "sent")] := by
          simp [dictInsert, hfs]
        rw [hins, senderAuto_phase3 f m.sender rest [(f, "received"), (m.sender, "sent")]]
        have hfl : ∀ L : List String,
            L.filter (fun x => lookupD [(f, "received"), (m.sender, "sent")] x = none) =
              (L.filter (fun x => x ≠ f)).filter (fun x => x ≠ m.sender) := by
          intro L
          rw [List.filter_filter]
          apply List.filter_congr
          intro x hx
          by_cases h1 : f = x
          · simp [lookupD, h1]
          · by_cases h2 : m.sender = x
            · simp [lookupD, h1, h2]
            · simp [lookupD, h1, h2]
              exact ⟨fun he => h2 he.symm, fun he => h1 he.symm⟩
        rw [hfl]
        rw [List.map_cons]
        rw [show ((m.sender :: rest.map Message.sender).filter (fun s => s ≠ "")).filter
              (fun s => s ≠ f) =
            m.sender :: ((rest.map Message.sender).filter (fun s => s ≠ "")).filter
              (fun s => s ≠ f) from by
            simp [List.filter_cons, hs, hf]]
        rw [dedupFirst]
        simp

/-- C6: with no explicit "my" name, the positional sender classifier
maps the first distinct non-empty sender to "received", the second
distinct sender to "sent", and every further distinct sender to
"received" (and classifies nothing else). -/
theorem c6_sender_lanes (messages : List Message) :
    build_sender_classes messages none = laneSpec (distinctSenders messages) := by
  show senderClassesAuto none none [] messages = laneSpec (distinctSenders messages)
  induction messages with
  | nil => simp [senderClassesAuto, distinctSenders, dedupFirst, laneSpec]
  | cons m rest ih =>
    by_cases hs : m.sender = ""
    · rw [show senderClassesAuto none none [] (m :: rest) =
          senderClassesAuto none none [] rest from by simp [senderClassesAuto, hs]]
      rw [ih]
      unfold distinctSenders
      simp [List.filter_cons, hs]
    · rw [show senderClassesAuto none none [] (m :: rest) =
          senderClassesAuto (some m.sender) none
            (dictInsert m.sender "received" []) rest from by simp [senderClassesAuto, hs]]
      rw [show dictInsert m.sender "received" [] = [(m.sender, "received")] from rfl]
      rw [senderAuto_phase2 m.sender rest]
      unfold distinctSenders
      rw [List.map_cons]
      rw [show (m.sender :: rest.map Message.sender).filter (fun s => s ≠ "") =
          m.sender :: (rest.map Message.sender).filter (fun s => s ≠ "") from by
            simp [List.filter_cons, hs]]
      rw [dedupFirst]
      cases hX : dedupFirst (((rest.map Message.sender).filter (fun s => s ≠ "")).filter
          (fun x => x ≠ m.sender)) with
      | nil => simp [laneSpec]
      | cons b others => simp [laneSpec]

theorem pyReplaceAux_single (c : Char) (rep : List Char) :
    ∀ (fuel : Nat) (l : List Char), l.length ≤ fuel →
      pyReplaceAux [c] rep fuel l =
        (l.map (fun d => if d = c then rep else [d])).flatten
  | fuel, [], _ => by cases fuel <;> simp [pyReplaceAux]
  | 0, d :: r, h => by simp at h
  | fuel + 1, d :: r, h => by
    have hr : r.length ≤ fuel := by simpa using h
    by_cases hdc : d = c
    · simp [pyReplaceAux, List.isPrefixOf, hdc, pyReplaceAux_single c rep fuel r hr]
    · simp [pyReplaceAux, List.isPrefixOf, hdc, pyReplaceAux_single c rep fuel r hr]
      intro he
      exact absurd he.symm hdc

theorem pyReplace_single_data (s : String) (c : Char) (rep pat : String)
    (hp : pat.data = [c]) :
    (pyReplace s pat rep).data =
      (s.data.map (fun d => if d = c then rep.data else [d])).flatten := by
  show pyReplaceAux pat.data rep.data s.data.length s.data = _
  rw [hp]
  exact pyReplaceAux_single c rep.data s.data.length s.data (le_refl _)

theorem escapeChain_eq :
    ∀ l : List Char,
      (((((((((l.map escAmp).flatten).map escLt).flatten).map escGt).flatten).map
          escQuot).flatten).map escApos).flatten =
        (l.map escapeCharSpec).flatten
  | [] => rfl
  | c :: r => by
    have ih := escapeChain_eq r
    simp only [List.map_cons, List.flatten_cons, List.map_append, List.flatten_append]
    rw [ih]
    congr 1
    by_cases h1 : c = '&'
    · subst h1; decide
    · by_cases h2 : c = '<'
      · subst h2; decide
      · by_cases h3 : c = '>'
        · subst h3; decide
        · by_cases h4 : c = '"'
          · subst h4; decide
          · by_cases h5 : c = Char.ofNat 39
            · subst h5; decide
            · simp [escAmp, escLt, escGt, escQuot, escApos, escapeCharSpec,
                h1, h2, h3, h4, h5]

theorem htmlEscape_data (s : String) :
    (htmlEscape s).data = (s.data.map escapeCharSpec).flatten := by
  unfold htmlEscape
  rw [pyReplace_single_data _ (Char.ofNat 39) "&#x27;" "\x27" (by decide)]
  rw [pyReplace_single_data _ '"' "&quot;" "\"" (by decide)]
  rw [pyReplace_single_data _ '>' "&gt;" ">" (by decide)]
  rw [pyReplace_single_data _ '<' "&lt;" "<" (by decide)]
  rw [pyReplace_single_data _ '&' "&amp;" "&" (by decide)]
  exact escapeChain_eq s.data

theorem escapeCharSpec_safe (d : Char) :
    ∀ c ∈ escapeCharSpec d, c ≠ '<' ∧ c ≠ '>' ∧ c ≠ '"' ∧ c ≠ Char.ofNat 39 := by
  intro c hc
  unfold escapeCharSpec at hc
  by_cases h1 : d = '&'
  · rw [if_pos h1] at hc
    simp at hc
    rcases hc with rfl | rfl | rfl | rfl | rfl <;> decide
  · rw [if_neg h1] at hc
    by_cases h2 : d = '<'
    · rw [if_pos h2] at hc
      simp at hc
      rcases hc with rfl | rfl | rfl | rfl <;> decide
    · rw [if_neg h2] at hc
      by_cases h3 : d = '>'
      · rw [if_pos h3] at hc
        simp at hc
        rcases hc with rfl | rfl | rfl | rfl <;> decide
      · rw [if_neg h3] at hc
        by_cases h4 : d = '"'
        · rw [if_pos h4] at hc
          simp at hc
          rcases hc with rfl | rfl | rfl | rfl | rfl | rfl <;> decide
        · rw [if_neg h4] at hc
          by_cases h5 : d = Char.ofNat 39
          · rw [if_pos h5] at hc
            simp at hc
            rcases hc with rfl | rfl | rfl | rfl | rfl | rfl <;> decide
          · rw [if_neg h5] at hc
            simp at hc
            subst hc
            exact ⟨h2, h3, h4, h5⟩

theorem htmlEscape_safe (s : String) :
    ∀ c ∈ (htmlEscape s).data,
      c ≠ '<' ∧ c ≠ '>' ∧ c ≠ '"' ∧ c ≠ Char.ofNat 39 := by
  intro c hc
  rw [htmlEscape_data] at hc
  rw [List.mem_flatten] at hc
  obtain ⟨l, hl, hcl⟩ := hc
  rw [List.mem_map] at hl
  obtain ⟨d, _, rfl⟩ := hl
  exact escapeCharSpec_safe d c hcl

theorem string_data_append (a b : String) : (a ++ b).data = a.data ++ b.data := by
  cases a
  cases b
  rfl

theorem countChar_append (c : Char) (a b : String) :
    countChar c (a ++ b) = countChar c a + countChar c b := by
  unfold countChar
  rw [string_data_append, List.count_append]

theorem countChar_lt_htmlEscape (s : String) : countChar '<' (htmlEscape s) = 0 := by
  unfold countChar
  rw [List.count_eq_zero]
  intro h
  exact (htmlEscape_safe s '<' h).1 rfl

theorem mem_of_mem_dropWhileWs :
    ∀ {l : List Char} {c : Char}, c ∈ l.dropWhile isPyWs → c ∈ l := by
  intro l
  induction l with
  | nil => intro c h; simp at h
  | cons a r ih =>
    intro c h
    rw [List.dropWhile_cons] at h
    by_cases ha : isPyWs a
    · simp only [ha, if_true] at h
      exact List.mem_cons_of_mem a (ih h)
    · simp only [ha, if_false] at h
      exact h

theorem mem_of_mem_pyStrip {c : Char} {s : String} (h : c ∈ (pyStrip s).data) :
    c ∈ s.data := by
  unfold pyStrip pyStripList at h
  simp only [List.mem_reverse] at h
  have h2 := mem_of_mem_dropWhileWs h
  rw [List.mem_reverse] at h2
  exact mem_of_mem_dropWhileWs h2

theorem countChar_lt_timestamp (d ti : String) :
    countChar '<' (pyStrip (htmlEscape d ++ " " ++ htmlEscape ti)) = 0 := by
  unfold countChar
  rw [List.count_eq_zero]
  intro h
  have h2 := mem_of_mem_pyStrip h
  rw [string_data_append, string_data_append] at h2
  simp only [List.mem_append] at h2
  rcases h2 with (h3 | h3) | h3
  · exact (htmlEscape_safe d '<' h3).1 rfl
  · exact absurd h3 (by decide)
  · exact (htmlEscape_safe ti '<' h3).1 rfl

theorem render_empty_index_shape (sn : String) (sc : List (String × String))
    (tr : Option (List (String × String))) (d ti tx : String) :
    render_message_html ⟨d, ti, sn, tx⟩ [] sc tr =
      "\n    <div class=\"message " ++ ((lookupD sc sn).getD "received") ++
        "\">\n        <div class=\"bubble\">\n            <div class=\"meta\">\n                <span class=\"sender\">" ++
        (if sn = "" then "System" else htmlEscape sn) ++
        "</span>\n                <span class=\"time\">" ++
        pyStrip (htmlEscape d ++ " " ++ htmlEscape ti) ++
        "</span>\n            </div>\n            <div class=\"text\">\n                " ++
        ("<span>" ++ htmlEscape tx ++ "</span>") ++
        "\n            </div>\n        </div>\n    </div>\n    " := rfl

/-- C1: the renderer escapes every plain-text span with `html.escape`;
escaping replaces each of the five HTML-unsafe characters by its
entity (first conjunct), leaves no raw `<`, `>`, `"` or apostrophe in
any escaped span (second conjunct), and consequently the number of
`<` characters of a rendered block — the only way to open new markup —
does not depend on the message text, date or time (third conjunct,
stated for the plain-text rendering path). -/
theorem c1_escaped_spans :
    (∀ s : String, htmlEscape s = ⟨(s.data.map escapeCharSpec).flatten⟩) ∧
    (∀ s : String, ∀ c ∈ (htmlEscape s).data,
        c ≠ '<' ∧ c ≠ '>' ∧ c ≠ '"' ∧ c ≠ Char.ofNat 39) ∧
    (∀ (d ti sn tx : String) (sc : List (String × String))
        (tr : Option (List (String × String))),
        countChar '<' (render_message_html ⟨d, ti, sn, tx⟩ [] sc tr) =
          countChar '<' (render_message_html ⟨"", "", sn, ""⟩ [] sc tr)) := by
  refine ⟨fun s => congrArg String.mk (htmlEscape_data s), htmlEscape_safe, ?_⟩
  intro d ti sn tx sc tr
  rw [render_empty_index_shape, render_empty_index_shape]
  simp only [countChar_append, countChar_lt_htmlEscape, countChar_lt_timestamp]

/-- C7: the line `20/06/2025, 23:29 - John: photo.jpg (file attached)`
parses into one message; rendered against a media index mapping
`photo.jpg` to any relative path, the block contains exactly one image
block (href and src both the escaped index path) and the trailing
`(file attached)` phrase is stripped, leaving no visible trailing
span. -/
theorem c7_photo_attachment :
    parse_chat ["20/06/2025, 23:29 - John: photo.jpg (file attached)"] =
      [{ date := "20/06/2025", time := "23:29", sender := "John",
         text := "photo.jpg (file attached)" }] ∧
    (∀ rel : String,
      render_message_html
          { date := "20/06/2025", time := "23:29", sender := "John",
            text := "photo.jpg (file attached)" }
          [("photo.jpg", rel)] [("John", "received")] none =
        "\n    <div class=\"message " ++ "received" ++
          "\">\n        <div class=\"bubble\">\n            <div class=\"meta\">\n                <span class=\"sender\">" ++
          "John" ++
          "</span>\n                <span class=\"time\">" ++ "20/06/2025 23:29" ++
          "</span>\n            </div>\n            <div class=\"text\">\n                " ++
          imageBlock (htmlEscape rel) ++
          "\n            </div>\n        </div>\n    </div>\n    ") := by
  constructor
  · decide
  · intro rel
    rfl

theorem load_skip (fs : String → Option String) (fullOf : String → String) (k : String) :
    ∀ (part : List (String × String)) (acc : List (String × String)),
      (∀ kv ∈ part, (kv : String × String).1 ≠ k) →
      lookupD (part.foldl (loadStep fs fullOf) acc) k = lookupD acc k
  | [], _, _ => rfl
  | kv :: rest, acc, h => by
    have hk : kv.1 ≠ k := h kv (List.mem_cons_self _ _)
    have ih := load_skip fs fullOf k rest (loadStep fs fullOf acc kv)
      (fun kv2 h2 => h kv2 (List.mem_cons_of_mem _ h2))
    rw [List.foldl_cons, ih]
    unfold loadStep
    by_cases ha : afterLastDot kv.1 ∈ AUDIO_EXTS
    · rw [if_pos ha]
      cases hfs : fs (if (fs (fullOf kv.2 ++ ".txt")).isSome then fullOf kv.2 ++ ".txt"
          else fullOf kv.2 ++ ".original.txt") with
      | none => rfl
      | some c =>
        rw [lookupD_dictInsert]
        rw [if_neg hk]
    · rw [if_neg ha]

/-- C8: for an audio-extension key of the media index, the loaded
transcription is the (stripped) content of the corrected sidecar
`<asset>.txt` whenever that file exists — regardless of the raw
sidecar — and of the raw sidecar `<asset>.original.txt` otherwise;
when neither sidecar exists the key is simply absent from the map
(`none`, never an error), and the rendered audio block for a key with
no transcription entry carries no caption. -/
theorem c8_transcription_sidecars (fs : String → Option String)
    (idx : List (String × String)) (fullOf : String → String) (k rel : String)
    (hnd : (idx.map Prod.fst).Nodup) (hmem : (k, rel) ∈ idx)
    (haudio : afterLastDot k ∈ AUDIO_EXTS) :
    ((fs (fullOf rel ++ ".txt")).isSome = true →
      lookupD (load_transcriptions fs idx fullOf) k =
        (fs (fullOf rel ++ ".txt")).map pyStrip) ∧
    (fs (fullOf rel ++ ".txt") = none →
      lookupD (load_transcriptions fs idx fullOf) k =
        (fs (fullOf rel ++ ".original.txt")).map pyStrip) ∧
    (∀ (fname key src : String) (tmap : List (String × String)),
      classify_media fname = "audio" → lookupD tmap key = none →
      mediaPart fname key src (some tmap) = audioBlock (htmlEscape src) "") := by
  obtain ⟨pre, post, rfl⟩ := List.append_of_mem hmem
  rw [List.map_append, List.map_cons, List.nodup_append] at hnd
  obtain ⟨_, h2, hdisj⟩ := hnd
  rw [List.nodup_cons] at h2
  obtain ⟨hknotin, _⟩ := h2
  have hkpre : ∀ kv ∈ pre, (kv : String × String).1 ≠ k := by
    intro kv hkv he
    have hm : kv.1 ∈ pre.map Prod.fst := List.mem_map.mpr ⟨kv, hkv, rfl⟩
    rw [he] at hm
    exact hdisj hm (List.mem_cons_self _ _)
  have hkpost : ∀ kv ∈ post, (kv : String × String).1 ≠ k := by
    intro kv hkv he
    have hm : kv.1 ∈ post.map Prod.fst := List.mem_map.mpr ⟨kv, hkv, rfl⟩
    rw [he] at hm
    exact hknotin hm
  have hpre0 : lookupD (pre.foldl (loadStep fs fullOf) []) k = none := by
    rw [load_skip fs fullOf k pre [] hkpre]
    rfl
  have hmain : lookupD (load_transcriptions fs (pre ++ (k, rel) :: post) fullOf) k =
      lookupD (loadStep fs fullOf (pre.foldl (loadStep fs fullOf) []) (k, rel)) k := by
    unfold load_transcriptions
    rw [List.foldl_append, List.foldl_cons]
    exact load_skip fs fullOf k post _ hkpost
  have hstep : ∀ acc : List (String × String),
      loadStep fs fullOf acc (k, rel) =
        match fs (if (fs (fullOf rel ++ ".txt")).isSome then fullOf rel ++ ".txt"
                  else fullOf rel ++ ".original.txt") with
        | some content => dictInsert k (pyStrip content) acc
        | none => acc := by
    intro acc
    unfold loadStep
    dsimp only
    rw [if_pos haudio]
  refine ⟨?_, ?_, ?_⟩
  · intro hsome
    obtain ⟨c, hc⟩ := Option.isSome_iff_exists.mp hsome
    rw [hmain, hstep]
    simp [hc, lookupD_dictInsert]
  · intro hnone
    rw [hmain, hstep, hnone]
    rw [if_neg (by simp)]
    cases hco : fs (fullOf rel ++ ".original.txt") with
    | none =>
      dsimp only
      rw [hpre0]
      rfl
    | some c =>
      dsimp only
      rw [lookupD_dictInsert, if_pos rfl]
      rfl
  · intro fname key src tmap hclass hlk
    unfold mediaPart
    rw [hclass]
    simp [hlk, audioBlock]

/-- Witness for C8 at a concrete filesystem where both sidecars exist:
the corrected sidecar wins and its content is stripped. -/
theorem c8_witness :
    lookupD (load_transcriptions
        (fun p => if p = "out/a.opus.txt" then some " corrected " else
                  if p = "out/a.opus.original.txt" then some "raw" else none)
        [("a.opus", "a.opus")] (fun r => "out/" ++ r)) "a.opus" = some "corrected" := by
  have h := (c8_transcription_sidecars
      (fun p => if p = "out/a.opus.txt" then some " corrected " else
                if p = "out/a.opus.original.txt" then some "raw" else none)
      [("a.opus", "a.opus")] (fun r => "out/" ++ r) "a.opus" "a.opus"
      (by decide) (by decide) (by decide)).1 (by decide)
  exact h.trans (by decide)

/-- C9, counterexample: the generated document embeds the wall-clock
timestamp in the title, so two runs on the same messages, media index,
sender map and transcription map need not be byte-identical — the
document is not a function of those inputs alone. -/
theorem c9_counterexample :
    generate_html [] [] none none "2025-01-01 00:00" ≠
      generate_html [] [] none none "2025-01-01 00:01" := by
  intro h
  have hd := congrArg String.data h
  unfold generate_html at hd
  simp only [string_data_append] at hd
  have h1 := List.append_cancel_left hd
  have h2 : (htmlEscape ("WhatsApp chat - generated " ++ "2025-01-01 00:00")).data =
      (htmlEscape ("WhatsApp chat - generated " ++ "2025-01-01 00:01")).data :=
    List.append_cancel_right h1
  exact absurd h2 (by decide)

/-- C9, amended: document generation is a pure function of the message
sequence, media index, sender-name option, transcription map **and the
clock reading**: re-rendering with the same inputs and the same
timestamp is byte-identical, and the timestamp influences only the
escaped title text between two strings that do not depend on it. -/
theorem c9_render_deterministic (messages : List Message)
    (mediaIndex : List (String × String)) (me : Option String)
    (tr : Option (List (String × String))) (now : String) :
    generate_html messages mediaIndex me tr now =
      generate_html messages mediaIndex me tr now ∧
    ∃ pre post : String, ∀ n : String,
      generate_html messages mediaIndex me tr n =
        pre ++ (htmlEscape ("WhatsApp chat - generated " ++ n) ++ post) :=
  ⟨rfl, docPre, docTitleStyle ++ (viewerCss ++ (docBodyOpen ++
    (String.intercalate "\n" (messages.map (fun m =>
      render_message_html m mediaIndex (build_sender_classes messages me) tr)) ++
      docTail))), fun _ => rfl⟩
